import Mathlib

/-!
Shallow embedding of the SharePoint schema-generator pipeline
(src/app.py and src/main.py; the two files duplicate the core logic).

The core functions embedded here are `get_column_type`,
`fetch_sharepoint_lists`, `fetch_columns` and `generate_uml_graph`.
HTTP transport (`fetch_data`) is modelled by passing the parsed JSON
response as an `Option Val` (`none` = request failure); the Graph
Renderer (graphviz) is modelled by the `GraphModel` structure holding
the node list (name, label) and edge list (source, target, label) that
the code hands to it, in emission order.

Python dictionaries parsed from JSON are association lists with unique
string keys; Python runtime errors that the code can raise (TypeError,
AttributeError, KeyError) are modelled with `Except String`.
-/

namespace SPSchema

/-- JSON-like Python value as produced by `response.json()`. -/
inductive Val where
  | vnull
  | vbool (b : Bool)
  | vnum (n : Int)
  | vstr (s : String)
  | varr (xs : List Val)
  | vobj (kvs : List (String × Val))

/-- Lookup of a key in a JSON object (keys are unique, first match). -/
def objLookup (kvs : List (String × Val)) (k : String) : Option Val :=
  (kvs.find? (fun p => p.1 == k)).map Prod.snd

/-- Python `dict.get(k, default)` on a JSON object. -/
def objGet (kvs : List (String × Val)) (k : String) (d : Val) : Val :=
  (objLookup kvs k).getD d

/-- Python `k in dict` on a JSON object. -/
def hasKey (kvs : List (String × Val)) (k : String) : Bool :=
  (objLookup kvs k).isSome

mutual

/-- Python `==` on JSON values: numeric/boolean coercion (`True == 1`),
structural equality elsewhere.  Python dict equality is key-set based;
since JSON objects have unique keys this is length plus key-wise value
equality. -/
def pyEq : Val → Val → Bool
  | .vnull, .vnull => true
  | .vbool a, .vbool b => a == b
  | .vbool a, .vnum n => (if a then (1 : Int) else 0) == n
  | .vnum n, .vbool b => n == (if b then (1 : Int) else 0)
  | .vnum a, .vnum b => a == b
  | .vstr a, .vstr b => a == b
  | .varr a, .varr b => pyEqList a b
  | .vobj a, .vobj b => a.length == b.length && pyEqObjSub a b
  | _, _ => false

/-- Python `==` on lists, element-wise. -/
def pyEqList : List Val → List Val → Bool
  | [], [] => true
  | x :: xs, y :: ys => pyEq x y && pyEqList xs ys
  | _, _ => false

/-- Containment of the first object in the second, key-wise. -/
def pyEqObjSub : List (String × Val) → List (String × Val) → Bool
  | [], _ => true
  | (k, v) :: rest, b =>
      (match b.find? (fun p => p.1 == k) with
       | some p => pyEq v p.2
       | none => false) && pyEqObjSub rest b

end

/-- Python truthiness of a JSON value (`if not lists_data`). -/
def pyTruthy : Val → Bool
  | .vnull => false
  | .vbool b => b
  | .vnum n => n != 0
  | .vstr s => s ≠ ""
  | .varr xs => !xs.isEmpty
  | .vobj kvs => !kvs.isEmpty

/-- Hashability of a JSON value: lists and dicts are unhashable and
cannot be dictionary keys. -/
def pyHashable : Val → Bool
  | .varr _ => false
  | .vobj _ => false
  | _ => true

/-- Python `str()` of a JSON value, as used by f-string interpolation in
the node labels.  Composite values are unhashable, hence never occur as
collection-map keys (the only values this is applied to), so the last
two cases are unreachable in the pipeline and only approximated. -/
def pyStr : Val → String
  | .vnull => "None"
  | .vbool b => if b then "True" else "False"
  | .vnum n => toString n
  | .vstr s => s
  | .varr _ => "[unhashable]"
  | .vobj _ => "[unhashable]"

/-- Python `needle in container` for a string needle: key membership for
a dict, element membership for a list, substring test for a string;
TypeError otherwise. -/
def pyContains (container : Val) (k : String) : Except String Bool :=
  match container with
  | .vobj kvs => .ok (hasKey kvs k)
  | .varr xs => .ok (xs.any (fun x => pyEq x (.vstr k)))
  | .vstr s => .ok (listHasSub k.toList s.toList)
  | _ => .error "TypeError: argument is not iterable"
where
  /-- Substring test on character lists. -/
  listHasSub (needle : List Char) : List Char → Bool
    | [] => needle.isEmpty
    | c :: rest => needle.isPrefixOf (c :: rest) || listHasSub needle rest

/-- Python `container[k]` for a string key: dict lookup (KeyError when
absent), TypeError on any non-dict. -/
def pyGetItem (container : Val) (k : String) : Except String Val :=
  match container with
  | .vobj kvs =>
      match objLookup kvs k with
      | some v => .ok v
      | none => .error "KeyError"
  | _ => .error "TypeError: indices must be integers"

/-- Python iteration `for x in v`: a list yields its elements, a string
its characters, a dict its keys; TypeError otherwise. -/
def pyIter : Val → Except String (List Val)
  | .varr xs => .ok xs
  | .vstr s => .ok (s.toList.map (fun c => .vstr (String.mk [c])))
  | .vobj kvs => .ok (kvs.map (fun p => Val.vstr p.1))
  | _ => .error "TypeError: object is not iterable"

/-- Python `v.get(k, default)`: dict lookup with default; AttributeError
on any non-dict. -/
def pyDictGet (v : Val) (k : String) (d : Val) : Except String Val :=
  match v with
  | .vobj kvs => .ok (objGet kvs k d)
  | _ => .error "AttributeError: object has no attribute get"

/-- LISTS_TO_IGNORE constant of src/app.py (src/main.py additionally
holds "Web Template Extensions"; no claim depends on the extra entry). -/
def LISTS_TO_IGNORE : List String :=
  ["Documents", "Liens de partage", "Extensions de modèle web", "User"]

/-- COLUMNS_TO_IGNORE constant (identical in both files). -/
def COLUMNS_TO_IGNORE : List String :=
  ["_ColorTag", "ComplianceAssetId", "_UIVersionString", "Attachments",
   "Edit", "LinkTitleNoMenu", "LinkTitle", "DocIcon", "ItemChildCount",
   "FolderChildCount", "_ComplianceFlags", "_ComplianceTag",
   "_ComplianceTagWrittenTime", "_ComplianceTagUserId", "_IsRecord",
   "AppAuthor", "AppEditor", "ID", "ContentType"]

/-- COLUMN_PATTERN_TO_IGNORE constant; its `re.match` semantics are
implemented by `matchX003a`. -/
def COLUMN_PATTERN_TO_IGNORE : String := ".*x003a.*"

/-- Result of `re.match(".*x003a.*", s)` viewed as a Bool: the match is
anchored at the start, `.` does not cross a newline, so it succeeds
exactly when some newline-free prefix is followed by "x003a". -/
def matchX003a : List Char → Bool
  | [] => false
  | c :: rest =>
      ("x003a".toList).isPrefixOf (c :: rest) || (c != '\n' && matchX003a rest)

/-- Classification result dict of `get_column_type`:
`{"type": ..., "details": ...}`. -/
structure TypeDetails where
  type : String
  details : Val

/-- Ordered `type_mappings` dict of `get_column_type` (Python dicts
iterate in insertion order). -/
def type_mappings : List (String × String) :=
  [("text", "text"), ("lookup", "lookup"), ("dateTime", "dateTime"),
   ("number", "number"), ("choice", "choice"), ("boolean", "boolean"),
   ("person", "person"), ("calculated", "calculated")]

/-- Embedding of `get_column_type` (src/app.py lines 58-75): first key of
`type_mappings` present in the descriptor wins, paired with the
descriptor value at that key; `unknown` with empty dict otherwise.
It is only ever applied after the caller has established the descriptor
is a dict, and is total on dicts. -/
def get_column_type (column : List (String × Val)) : TypeDetails :=
  match type_mappings.find? (fun kv => hasKey column kv.1) with
  | some kv => { type := kv.2, details := objGet column kv.1 .vnull }
  | none => { type := "unknown", details := .vobj [] }

/-- Python dict assignment `d[k] = v` on the name-keyed collection map:
update in place when an equal key exists (keeping the original key
object and its position), append otherwise. -/
def dictSet (d : List (Val × Val)) (k v : Val) : List (Val × Val) :=
  if d.any (fun p => pyEq p.1 k) then
    d.map (fun p => if pyEq p.1 k then (p.1, v) else p)
  else d ++ [(k, v)]

/-- Loop body of `fetch_sharepoint_lists` over `lists_data["value"]`:
items that are not dicts or miss `displayName`/`id` are skipped (with a
logged warning); ignored display names are skipped silently; an
unhashable display name raises TypeError at the assignment. -/
def processListItems : List Val → List (Val × Val) → Except String (List (Val × Val))
  | [], acc => .ok acc
  | item :: rest, acc =>
    match item with
    | .vobj kvs =>
        if hasKey kvs "displayName" && hasKey kvs "id" then
          let dn := objGet kvs "displayName" .vnull
          if LISTS_TO_IGNORE.any (fun s => pyEq dn (.vstr s)) then
            processListItems rest acc
          else if pyHashable dn then
            processListItems rest (dictSet acc dn (objGet kvs "id" .vnull))
          else .error "TypeError: unhashable type"
        else processListItems rest acc
    | _ => processListItems rest acc

/-- Embedding of `fetch_sharepoint_lists` (src/app.py lines 78-98): the
parsed collection-listing response comes in as `Option Val` (`none` =
failed request); a missing/falsy payload or one without a "value" key
yields an empty map.  The returned headers/endpoint are transport values
and are not modelled. -/
def fetch_sharepoint_lists (lists_data : Option Val) : Except String (List (Val × Val)) :=
  match lists_data with
  | none => .ok []
  | some d =>
    if !pyTruthy d then .ok []
    else
      match pyContains d "value" with
      | .error e => .error e
      | .ok false => .ok []
      | .ok true =>
          match pyGetItem d "value" with
          | .error e => .error e
          | .ok v =>
            match pyIter v with
            | .error e => .error e
            | .ok items => processListItems items []

/-- Column dict built by `fetch_columns`:
`{"name": ..., "id": ..., "required": ..., "type_details": ...}`.
The name is a `String` because a non-string name raises TypeError in
`re.match` before the dict is ever built. -/
structure Column where
  name : String
  id : Val
  required : Val
  type_details : TypeDetails

/-- Loop body of `fetch_columns` over `columns_data["value"]`: a column
whose name is in `COLUMNS_TO_IGNORE` (only possible for a string name)
is skipped before the regex runs; otherwise `re.match` raises TypeError
on a non-string name; a name matching the pattern is skipped; every
other column is kept, in order, with `col.get` defaults. -/
def processCols : List Val → Except String (List Column)
  | [] => .ok []
  | col :: rest =>
    match col with
    | .vobj kvs =>
        let nameVal := objGet kvs "name" (.vstr "")
        if COLUMNS_TO_IGNORE.any (fun s => pyEq nameVal (.vstr s)) then
          processCols rest
        else
          match nameVal with
          | .vstr s =>
              if matchX003a s.toList then processCols rest
              else
                match processCols rest with
                | .error e => .error e
                | .ok rest2 =>
                    .ok ({ name := s, id := objGet kvs "id" .vnull,
                           required := objGet kvs "required" (.vbool false),
                           type_details := get_column_type kvs } :: rest2)
          | _ => .error "TypeError: expected string or bytes-like object"
    | _ => .error "AttributeError: object has no attribute get"

/-- Embedding of `fetch_columns` (src/app.py lines 100-122): the parsed
field-listing response comes in as `Option Val` (`none` = failed
request); a missing/falsy payload or one without a "value" key yields an
empty field list (logged, not fatal). -/
def fetch_columns (columns_data : Option Val) : Except String (List Column) :=
  match columns_data with
  | none => .ok []
  | some d =>
    if !pyTruthy d then .ok []
    else
      match pyContains d "value" with
      | .error e => .error e
      | .ok false => .ok []
      | .ok true =>
          match pyGetItem d "value" with
          | .error e => .error e
          | .ok v =>
            match pyIter v with
            | .error e => .error e
            | .ok cols => processCols cols

/-- Candidate relationship `(list_name, list_id_lookup, column_name)`
collected in the first loop of `generate_uml_graph`. -/
structure Rel where
  src : Val
  targetId : Val
  fieldName : String

/-- Edge `graph.edge(source_table, target_table, label=column_name)`. -/
structure Edge where
  src : Val
  tgt : Val
  label : String

/-- Graph handed to graphviz: nodes `(name, label)` and edges, both in
emission order. -/
structure GraphModel where
  nodes : List (Val × String)
  edges : List Edge

/-- Row `<TR><TD>{name}</TD><TD>{type}</TD></TR>\n` of a node label. -/
def mkRow (c : Column) : String :=
  "<TR><TD>" ++ c.name ++ "</TD><TD>" ++ c.type_details.type ++ "</TD></TR>\n"

/-- Node label built by the first loop of `generate_uml_graph`: header
with the collection name, one row per fetched column, closing tag. -/
def mkNodeLabel (list_name : Val) (cols : List Column) : String :=
  "<<TABLE BORDER=\x27" ++ "0\x27 CELLBORDER=\x27" ++ "1\x27 CELLSPACING=\x27" ++ "0\x27>\n"
    ++ "<TR><TD COLSPAN=\x27" ++ "2\x27><B>" ++ pyStr list_name ++ "</B></TD></TR>\n"
    ++ String.join (cols.map mkRow)
    ++ "</TABLE>>"

/-- Relationship collection of the first loop of `generate_uml_graph`:
for each column whose classified type is "lookup", read
`type_details.details.get("listId")` (AttributeError when the details
payload is not a dict) and record a relationship when it is truthy. -/
def collectRels (list_name : Val) : List Column → Except String (List Rel)
  | [] => .ok []
  | c :: rest =>
      if c.type_details.type == "lookup" then
        match pyDictGet c.type_details.details "listId" .vnull with
        | .error e => .error e
        | .ok lid =>
          match collectRels list_name rest with
          | .error e => .error e
          | .ok more =>
              .ok ((if pyTruthy lid then [Rel.mk list_name lid c.name] else []) ++ more)
      else collectRels list_name rest

/-- First loop of `generate_uml_graph` over `lists_dict.items()`: fetch
the columns of each collection (the per-collection field-listing
response is supplied by `fetchResp` keyed on the collection id), emit
its node, and accumulate the lookup relationships, preserving order. -/
def buildLists (fetchResp : Val → Option Val) :
    List (Val × Val) → Except String (List (Val × String) × List Rel)
  | [] => .ok ([], [])
  | (ln, lid) :: rest =>
      match fetch_columns (fetchResp lid) with
      | .error e => .error e
      | .ok cols =>
        match collectRels ln cols with
        | .error e => .error e
        | .ok rels =>
          match buildLists fetchResp rest with
          | .error e => .error e
          | .ok (nodes, rels2) => .ok ((ln, mkNodeLabel ln cols) :: nodes, rels ++ rels2)

/-- Linear scan of the second loop of `generate_uml_graph`: first
collection whose id equals the relationship target id (Python `==`). -/
def resolveTarget (lists_dict : List (Val × Val)) (targetId : Val) : Option Val :=
  (lists_dict.find? (fun p => pyEq p.2 targetId)).map Prod.fst

/-- Second loop of `generate_uml_graph`: `target_table` is `None` or the
first collection name whose id equals the target id, and the edge is
emitted only under `if target_table:` — a truthiness test, so both an
unresolved target and a resolved but falsy display name (such as `""`)
are dropped silently. -/
def buildEdges (rels : List Rel) (lists_dict : List (Val × Val)) : List Edge :=
  rels.filterMap (fun r =>
    match resolveTarget lists_dict r.targetId with
    | some t => if pyTruthy t then some (Edge.mk r.src t r.fieldName) else none
    | none => none)

/-- Embedding of `generate_uml_graph` (src/app.py lines 125-173):
build the nodes and relationships, then the edges. -/
def generate_uml_graph (lists_dict : List (Val × Val)) (fetchResp : Val → Option Val) :
    Except String GraphModel :=
  match buildLists fetchResp lists_dict with
  | .error e => .error e
  | .ok (nodes, rels) => .ok ⟨nodes, buildEdges rels lists_dict⟩

/-- Extraction of a successful `buildLists` result (used to name concrete
results in closed statements). -/
def okPair (x : Except String (List (Val × String) × List Rel)) :
    List (Val × String) × List Rel :=
  (x.toOption).getD ([], [])

/-- Extraction of a successful `generate_uml_graph` result. -/
def okGraph (x : Except String GraphModel) : GraphModel :=
  (x.toOption).getD ⟨[], []⟩

/-- Concrete collection-listing payload: an ignored collection
(`Documents`) plus `Orders` and `Customers`. -/
def wPayloadLists : Val :=
  .vobj [("value", .varr
    [.vobj [("displayName", .vstr "Documents"), ("id", .vstr "d1")],
     .vobj [("displayName", .vstr "Orders"), ("id", .vstr "o1")],
     .vobj [("displayName", .vstr "Customers"), ("id", .vstr "c1")]])]

/-- Concrete field-listing payload for `Orders`: a text field, an
ignored system field, a lookup resolving to `Customers`, and a lookup
whose target id matches no retained collection. -/
def wColsOrders : Val :=
  .vobj [("value", .varr
    [.vobj [("name", .vstr "Title"), ("text", .vobj [])],
     .vobj [("name", .vstr "ID"), ("number", .vobj [])],
     .vobj [("name", .vstr "CustomerRef"),
            ("lookup", .vobj [("listId", .vstr "c1")])],
     .vobj [("name", .vstr "GhostRef"),
            ("lookup", .vobj [("listId", .vstr "zz")])]])]

/-- Concrete field-listing payload for `Customers`. -/
def wColsCustomers : Val :=
  .vobj [("value", .varr [.vobj [("name", .vstr "Title"), ("text", .vobj [])]])]

/-- Concrete per-collection field responses keyed on collection id. -/
def wFetch : Val → Option Val := fun lid =>
  if pyEq lid (.vstr "o1") then some wColsOrders
  else if pyEq lid (.vstr "c1") then some wColsCustomers
  else none

/-- Collection map produced from `wPayloadLists`. -/
def wLd : List (Val × Val) :=
  [(Val.vstr "Orders", Val.vstr "o1"), (Val.vstr "Customers", Val.vstr "c1")]

/-- Graph assembled from the concrete fixtures. -/
def wGraph : GraphModel := okGraph (generate_uml_graph wLd wFetch)

/-- Concrete field responses where only collection id `o1` answers; every
other field-listing request fails. -/
def c3F : Val → Option Val := fun lid =>
  if pyEq lid (.vstr "o1") then some wColsCustomers else none

theorem find?_eq_head?_filter {α : Type} (p : α → Bool) (l : List α) :
    l.find? p = (l.filter p).head? := by
  induction l with
  | nil => rfl
  | cons x xs ih =>
      cases h : p x with
      | true => rw [List.find?_cons_of_pos _ h, List.filter_cons_of_pos h, List.head?_cons]
      | false => rw [List.find?_cons_of_neg _ (by simp [h]), List.filter_cons_of_neg (by simp [h]), ih]

theorem pyEq_vstr (a b : String) : pyEq (.vstr a) (.vstr b) = (a == b) := rfl

theorem any_pyEq_vstr_eq_false {name : String} {l : List String} (h : name ∉ l) :
    l.any (fun s => pyEq (.vstr name) (.vstr s)) = false := by
  rw [List.any_eq_false]
  intro s hs
  rw [pyEq_vstr]
  simp only [beq_iff_eq]
  rintro rfl
  exact h hs

theorem dictSet_fst_mem (d : List (Val × Val)) (k v : Val) :
    ∀ p ∈ dictSet d k v, p.1 ∈ d.map Prod.fst ∨ p.1 = k := by
  intro p hp
  unfold dictSet at hp
  split at hp
  · rcases List.mem_map.1 hp with ⟨q, hq, hfq⟩
    have h1 : p.1 = q.1 := by
      rw [← hfq]; split <;> rfl
    exact Or.inl (h1 ▸ List.mem_map_of_mem Prod.fst hq)
  · rcases List.mem_append.1 hp with hin | hnew
    · exact Or.inl (List.mem_map_of_mem Prod.fst hin)
    · simp only [List.mem_singleton] at hnew
      exact Or.inr (by rw [hnew])

/-- C1: for every raw field descriptor containing more than one
classifier key, `get_column_type` returns the tag of the earliest
matching key in the fixed order text, lookup, dateTime, number, choice,
boolean, person, calculated, paired with the descriptor value at that
key as the detail payload. -/
theorem c1_first_match_wins (column : List (String × Val))
    (h : 1 < (type_mappings.filter (fun kv => hasKey column kv.1)).length) :
    ∃ kv d, (type_mappings.filter (fun kv => hasKey column kv.1)).head? = some kv ∧
      objLookup column kv.1 = some d ∧
      get_column_type column = ⟨kv.2, d⟩ := by
  have hfind : type_mappings.find? (fun kv => hasKey column kv.1)
      = (type_mappings.filter (fun kv => hasKey column kv.1)).head? :=
    find?_eq_head?_filter _ _
  obtain ⟨kv, hkv⟩ : ∃ kv,
      (type_mappings.filter (fun kv => hasKey column kv.1)).head? = some kv := by
    cases hl : type_mappings.filter (fun kv => hasKey column kv.1) with
    | nil => rw [hl] at h; simp at h
    | cons a l => exact ⟨a, by simp [hl]⟩
  have hfs : type_mappings.find? (fun kv => hasKey column kv.1) = some kv := by
    rw [hfind, hkv]
  have hpred : hasKey column kv.1 = true :=
    List.find?_some (p := fun kv : String × String => hasKey column kv.1) hfs
  obtain ⟨d, hd⟩ : ∃ d, objLookup column kv.1 = some d := by
    unfold hasKey at hpred
    exact Option.isSome_iff_exists.1 hpred
  refine ⟨kv, d, hkv, hd, ?_⟩
  unfold get_column_type
  rw [hfs]
  simp [objGet, hd]

/-- Witness for C1: a descriptor carrying both a `lookup` and a `text`
key is classified `text` (the earlier key in the fixed order) with the
descriptor value at `text` as the details. -/
theorem c1_first_match_wins_witness :
    (1 < (type_mappings.filter (fun kv => hasKey
        [("lookup", Val.vobj [("listId", Val.vstr "L1")]), ("text", Val.vnull)]
        kv.1)).length)
    ∧ ∃ kv d, (type_mappings.filter (fun kv => hasKey
        [("lookup", Val.vobj [("listId", Val.vstr "L1")]), ("text", Val.vnull)]
        kv.1)).head? = some kv ∧
      objLookup [("lookup", Val.vobj [("listId", Val.vstr "L1")]), ("text", Val.vnull)]
        kv.1 = some d ∧
      get_column_type [("lookup", Val.vobj [("listId", Val.vstr "L1")]), ("text", Val.vnull)]
        = ⟨kv.2, d⟩ :=
  ⟨by decide, c1_first_match_wins _ (by decide)⟩

/-- C9: a raw field descriptor containing none of the eight classifier
keys is classified `unknown` with an empty detail object; the classifier
is a total function on descriptors (its Lean type is not `Except`). -/
theorem c9_no_key_unknown (column : List (String × Val))
    (h : ∀ kv ∈ type_mappings, hasKey column kv.1 = false) :
    get_column_type column = ⟨"unknown", .vobj []⟩ := by
  unfold get_column_type
  rw [List.find?_eq_none.mpr (fun kv hkv => by simp [h kv hkv])]

/-- Witness for C9: a descriptor holding only non-classifier keys maps
to `unknown` with empty details. -/
theorem c9_no_key_unknown_witness :
    (∀ kv ∈ type_mappings,
      hasKey [("name", Val.vstr "Title"), ("columnGroup", Val.vstr "Custom")] kv.1 = false)
    ∧ get_column_type [("name", Val.vstr "Title"), ("columnGroup", Val.vstr "Custom")]
        = ⟨"unknown", .vobj []⟩ :=
  ⟨by decide, c9_no_key_unknown _ (by decide)⟩

/-- C2: a relationship coming from a lookup field whose target id equals
no retained collection id contributes zero edges, is dropped silently
(`buildEdges` is total, so the edge loop cannot abort), and every edge of
the surrounding relationships is emitted unchanged; the node loop never
reads the relationship list, so nodes are unaffected by construction. -/
theorem c2_dangling_lookup_dropped (lists_dict : List (Val × Val))
    (before after : List Rel) (r : Rel)
    (h : ∀ p ∈ lists_dict, pyEq p.2 r.targetId = false) :
    buildEdges (before ++ r :: after) lists_dict
      = buildEdges (before ++ after) lists_dict := by
  have hres : resolveTarget lists_dict r.targetId = none := by
    unfold resolveTarget
    rw [List.find?_eq_none.mpr (fun p hp => by simp [h p hp])]
    rfl
  unfold buildEdges
  rw [List.filterMap_append, List.filterMap_append, List.filterMap_cons]
  simp [hres]

/-- Witness for C2: in the concrete collection map, the `GhostRef` lookup
targeting the unknown id `zz` yields the same edge list as if it were
absent, leaving the `CustomerRef` edge untouched. -/
theorem c2_dangling_lookup_dropped_witness :
    (∀ p ∈ wLd, pyEq p.2 (Rel.mk (Val.vstr "Orders") (Val.vstr "zz") "GhostRef").targetId
        = false)
    ∧ buildEdges ([] ++ Rel.mk (Val.vstr "Orders") (Val.vstr "zz") "GhostRef"
          :: [Rel.mk (Val.vstr "Orders") (Val.vstr "c1") "CustomerRef"]) wLd
        = buildEdges ([] ++ [Rel.mk (Val.vstr "Orders") (Val.vstr "c1") "CustomerRef"]) wLd :=
  ⟨by decide,
   c2_dangling_lookup_dropped wLd [] [Rel.mk (Val.vstr "Orders") (Val.vstr "c1") "CustomerRef"]
     (Rel.mk (Val.vstr "Orders") (Val.vstr "zz") "GhostRef") (by decide)⟩

/-- C8 counterexample: a collection whose display name is the falsy
string `""` is retained in the collection map, and a lookup relationship
targeting its id resolves — the relationship survives the dangling-drop
step — yet the `if target_table:` truthiness guard emits zero edges for
it, not exactly one. -/
theorem c8_truthiness_guard_counterexample :
    resolveTarget [(Val.vstr "", Val.vstr "e1")] (Val.vstr "e1") = some (Val.vstr "")
    ∧ fetch_sharepoint_lists (some (.vobj [("value", .varr
        [.vobj [("displayName", .vstr ""), ("id", .vstr "e1")]])]))
        = .ok [(Val.vstr "", Val.vstr "e1")]
    ∧ buildEdges [Rel.mk (Val.vstr "Tasks") (Val.vstr "e1") "Ref"]
        [(Val.vstr "", Val.vstr "e1")] = [] :=
  ⟨rfl, rfl, rfl⟩

/-- C8 amended: the edge loop emits exactly one edge per relationship
whose target id resolves to a retained collection with a truthy display
name; each such edge runs from the relationship source to the resolved
target and is labeled with the field name; and the loop is compositional
over the relationship list, so multiple such relationships each keep
their own edge with no deduplication or merging. -/
theorem c8_one_edge_per_truthy_resolved (ld : List (Val × Val)) (rels : List Rel) :
    (buildEdges rels ld).length
        = (rels.filter (fun r =>
            match resolveTarget ld r.targetId with
            | some t => pyTruthy t
            | none => false)).length
    ∧ (∀ r ∈ rels, ∀ t, resolveTarget ld r.targetId = some t → pyTruthy t = true →
        Edge.mk r.src t r.fieldName ∈ buildEdges rels ld)
    ∧ (∀ bs cs : List Rel, buildEdges (bs ++ cs) ld = buildEdges bs ld ++ buildEdges cs ld) := by
  refine ⟨?_, ?_, ?_⟩
  · induction rels with
    | nil => rfl
    | cons r rs ih =>
        cases hr : resolveTarget ld r.targetId with
        | none => simpa [buildEdges, List.filterMap_cons, List.filter_cons, hr] using ih
        | some t =>
            cases htr : pyTruthy t with
            | false => simpa [buildEdges, List.filterMap_cons, List.filter_cons, hr, htr] using ih
            | true => simpa [buildEdges, List.filterMap_cons, List.filter_cons, hr, htr] using ih
  · intro r hr t ht htr
    refine List.mem_filterMap.2 ⟨r, hr, ?_⟩
    simp [ht, htr]
  · intro bs cs
    simp [buildEdges, List.filterMap_append]

/-- Witness for C8 amended: two lookup relationships of the same
collection that resolve to (distinct) truthy-named targets produce
exactly two distinct edges, both retained. -/
theorem c8_one_edge_per_truthy_resolved_witness :
    (buildEdges [Rel.mk (Val.vstr "Orders") (Val.vstr "c1") "CustomerRef",
                 Rel.mk (Val.vstr "Orders") (Val.vstr "o1") "ParentRef"] wLd).length
      = ([Rel.mk (Val.vstr "Orders") (Val.vstr "c1") "CustomerRef",
          Rel.mk (Val.vstr "Orders") (Val.vstr "o1") "ParentRef"].filter
            (fun r =>
              match resolveTarget wLd r.targetId with
              | some t => pyTruthy t
              | none => false)).length
    ∧ buildEdges [Rel.mk (Val.vstr "Orders") (Val.vstr "c1") "CustomerRef",
                  Rel.mk (Val.vstr "Orders") (Val.vstr "o1") "ParentRef"] wLd
        = [Edge.mk (Val.vstr "Orders") (Val.vstr "Customers") "CustomerRef",
           Edge.mk (Val.vstr "Orders") (Val.vstr "Orders") "ParentRef"] :=
  ⟨(c8_one_edge_per_truthy_resolved wLd
      [Rel.mk (Val.vstr "Orders") (Val.vstr "c1") "CustomerRef",
       Rel.mk (Val.vstr "Orders") (Val.vstr "o1") "ParentRef"]).1,
   rfl⟩

theorem buildLists_append (f : Val → Option Val) :
    ∀ (l1 l2 : List (Val × Val)) (n1 n2 : List (Val × String)) (r1 r2 : List Rel),
      buildLists f l1 = .ok (n1, r1) → buildLists f l2 = .ok (n2, r2) →
      buildLists f (l1 ++ l2) = .ok (n1 ++ n2, r1 ++ r2) := by
  intro l1
  induction l1 with
  | nil =>
      intro l2 n1 n2 r1 r2 h1 h2
      simp only [buildLists] at h1
      rcases h1 with ⟨rfl, rfl⟩
      simpa using h2
  | cons hd tl ih =>
      intro l2 n1 n2 r1 r2 h1 h2
      obtain ⟨ln, lid⟩ := hd
      cases hc : fetch_columns (f lid) with
      | error e => simp [buildLists, hc] at h1
      | ok cols =>
          cases hr : collectRels ln cols with
          | error e => simp [buildLists, hc, hr] at h1
          | ok rels =>
              cases hb : buildLists f tl with
              | error e => simp [buildLists, hc, hr, hb] at h1
              | ok pr =>
                  obtain ⟨nodes, rels2⟩ := pr
                  simp only [buildLists, hc, hr, hb, Except.ok.injEq, Prod.mk.injEq] at h1
                  rcases h1 with ⟨rfl, rfl⟩
                  simp only [List.cons_append, buildLists, hc, hr, List.append_eq]
                  rw [ih l2 nodes n2 rels2 r2 hb h2]
                  simp

/-- C3: when the field-listing response for one collection is a failed
request or a payload without the "value" key, `fetch_columns` yields the
empty field list for that collection only: the collection still gets its
node, with an empty field table, contributes no relationships, and the
nodes and relationships of every other collection are exactly those of
the run without it. -/
theorem c3_partial_field_failure (f : Val → Option Val) (ln lid : Val)
    (before after : List (Val × Val)) (n1 n2 : List (Val × String)) (r1 r2 : List Rel)
    (hfail : f lid = none ∨ ∃ v, f lid = some v ∧
      (pyTruthy v = false ∨ pyContains v "value" = .ok false))
    (h1 : buildLists f before = .ok (n1, r1))
    (h2 : buildLists f after = .ok (n2, r2)) :
    buildLists f (before ++ (ln, lid) :: after)
      = .ok (n1 ++ (ln, mkNodeLabel ln []) :: n2, r1 ++ r2) := by
  have hcols : fetch_columns (f lid) = .ok [] := by
    rcases hfail with hnone | ⟨v, hv, hbad⟩
    · rw [hnone]; rfl
    · rw [hv]
      unfold fetch_columns
      rcases hbad with ht | hc
      · simp [ht]
      · by_cases htr : pyTruthy v
        · simp [htr, hc]
        · simp [htr]
  have hmid : buildLists f ((ln, lid) :: after) = .ok ((ln, mkNodeLabel ln []) :: n2, r2) := by
    simp [buildLists, hcols, collectRels, h2]
  exact buildLists_append f before ((ln, lid) :: after) n1 ((ln, mkNodeLabel ln []) :: n2)
    r1 r2 h1 hmid

/-- Witness for C3: the field-listing request for collection `Tasks`
(id `t9`) fails, yet `Tasks` appears as a node with an empty field
table while the preceding collection is processed normally. -/
theorem c3_partial_field_failure_witness :
    (c3F (Val.vstr "t9") = none)
    ∧ buildLists c3F ([(Val.vstr "Orders", Val.vstr "o1")]
          ++ (Val.vstr "Tasks", Val.vstr "t9") :: [])
        = .ok ((okPair (buildLists c3F [(Val.vstr "Orders", Val.vstr "o1")])).1
                 ++ (Val.vstr "Tasks", mkNodeLabel (Val.vstr "Tasks") []) :: [],
               (okPair (buildLists c3F [(Val.vstr "Orders", Val.vstr "o1")])).2 ++ []) :=
  ⟨rfl,
   c3_partial_field_failure c3F (Val.vstr "Tasks") (Val.vstr "t9")
     [(Val.vstr "Orders", Val.vstr "o1")] []
     (okPair (buildLists c3F [(Val.vstr "Orders", Val.vstr "o1")])).1 []
     (okPair (buildLists c3F [(Val.vstr "Orders", Val.vstr "o1")])).2 []
     (Or.inl rfl) rfl rfl⟩

theorem processListItems_keys {name : String} (hn : name ∈ LISTS_TO_IGNORE) :
    ∀ (items : List Val) (acc d : List (Val × Val)),
      processListItems items acc = .ok d →
      (∀ p ∈ acc, p.1 ≠ Val.vstr name) →
      ∀ p ∈ d, p.1 ≠ Val.vstr name := by
  intro items
  induction items with
  | nil =>
      intro acc d h hacc
      simp only [processListItems, Except.ok.injEq] at h
      exact h ▸ hacc
  | cons item rest ih =>
      intro acc d h hacc
      cases item with
      | vobj kvs =>
          simp only [processListItems] at h
          by_cases hkeys : (hasKey kvs "displayName" && hasKey kvs "id") = true
          · rw [if_pos hkeys] at h
            by_cases hig : (LISTS_TO_IGNORE.any fun s =>
                pyEq (objGet kvs "displayName" Val.vnull) (.vstr s)) = true
            · rw [if_pos hig] at h
              exact ih _ _ h hacc
            · rw [if_neg hig] at h
              by_cases hh : pyHashable (objGet kvs "displayName" Val.vnull) = true
              · rw [if_pos hh] at h
                refine ih _ _ h ?_
                intro p hp
                rcases dictSet_fst_mem _ _ _ p hp with hmem | hk
                · rcases List.mem_map.1 hmem with ⟨q, hq, hq1⟩
                  exact hq1 ▸ hacc q hq
                · rw [hk]
                  intro hcontra
                  apply hig
                  rw [hcontra]
                  exact List.any_eq_true.2 ⟨name, hn, by simp [pyEq_vstr]⟩
              · rw [if_neg hh] at h
                simp at h
          · rw [if_neg hkeys] at h
            exact ih _ _ h hacc
      | vnull => simp only [processListItems] at h; exact ih _ _ h hacc
      | vbool b => simp only [processListItems] at h; exact ih _ _ h hacc
      | vnum n => simp only [processListItems] at h; exact ih _ _ h hacc
      | vstr s => simp only [processListItems] at h; exact ih _ _ h hacc
      | varr xs => simp only [processListItems] at h; exact ih _ _ h hacc

theorem fetch_lists_keys {name : String} (hn : name ∈ LISTS_TO_IGNORE)
    (x : Option Val) (ld : List (Val × Val))
    (h : fetch_sharepoint_lists x = .ok ld) :
    ∀ p ∈ ld, p.1 ≠ Val.vstr name := by
  cases x with
  | none =>
      simp only [fetch_sharepoint_lists, Except.ok.injEq] at h
      subst h
      simp
  | some d =>
      simp only [fetch_sharepoint_lists] at h
      cases htr : pyTruthy d with
      | false =>
          simp only [htr, Bool.not_false, if_pos, Except.ok.injEq] at h
          subst h
          simp
      | true =>
          rw [htr] at h
          rw [if_neg (by simp)] at h
          cases hc : pyContains d "value" with
          | error e => simp [hc] at h
          | ok b =>
              cases b with
              | false =>
                  simp only [hc, Except.ok.injEq] at h
                  subst h
                  simp
              | true =>
                  simp only [hc] at h
                  cases hg : pyGetItem d "value" with
                  | error e => simp [hg] at h
                  | ok v =>
                      simp only [hg] at h
                      cases hi : pyIter v with
                      | error e => simp [hi] at h
                      | ok items =>
                          simp only [hi] at h
                          exact processListItems_keys hn items [] ld h (by simp)

theorem buildLists_node_names (f : Val → Option Val) :
    ∀ (ld : List (Val × Val)) (nodes : List (Val × String)) (rels : List Rel),
      buildLists f ld = .ok (nodes, rels) →
      nodes.map Prod.fst = ld.map Prod.fst := by
  intro ld
  induction ld with
  | nil =>
      intro nodes rels h
      simp only [buildLists, Except.ok.injEq, Prod.mk.injEq] at h
      rcases h with ⟨rfl, rfl⟩
      rfl
  | cons hd tl ih =>
      intro nodes rels h
      obtain ⟨ln, lid⟩ := hd
      cases hc : fetch_columns (f lid) with
      | error e => simp [buildLists, hc] at h
      | ok cols =>
          cases hr : collectRels ln cols with
          | error e => simp [buildLists, hc, hr] at h
          | ok rels1 =>
              cases hb : buildLists f tl with
              | error e => simp [buildLists, hc, hr, hb] at h
              | ok pr =>
                  obtain ⟨nodes2, rels2⟩ := pr
                  simp only [buildLists, hc, hr, hb, Except.ok.injEq, Prod.mk.injEq] at h
                  rcases h with ⟨rfl, rfl⟩
                  simp [ih nodes2 rels2 hb]

/-- C4: a collection whose display name is in `LISTS_TO_IGNORE` never
yields a node of the assembled graph, regardless of the payload the
source returned: the fetched collection map contains no such key, and
node names are exactly the map keys. -/
theorem c4_ignored_collection_has_no_node (lists_data : Option Val)
    (f : Val → Option Val) (name : String) (ld : List (Val × Val)) (g : GraphModel)
    (hn : name ∈ LISTS_TO_IGNORE)
    (hf : fetch_sharepoint_lists lists_data = .ok ld)
    (hg : generate_uml_graph ld f = .ok g) :
    ∀ nd ∈ g.nodes, nd.1 ≠ Val.vstr name := by
  cases hb : buildLists f ld with
  | error e => simp [generate_uml_graph, hb] at hg
  | ok pr =>
      obtain ⟨nodes, rels⟩ := pr
      simp only [generate_uml_graph, hb, Except.ok.injEq] at hg
      subst hg
      intro nd hnd
      have hnd2 : nd ∈ nodes := hnd
      have h1 : nd.1 ∈ ld.map Prod.fst := by
        rw [← buildLists_node_names f ld nodes rels hb]
        exact List.mem_map_of_mem Prod.fst hnd2
      rcases List.mem_map.1 h1 with ⟨p, hp, hp1⟩
      rw [← hp1]
      exact fetch_lists_keys hn lists_data ld hf p hp

/-- Witness for C4: the source returns `Documents` (ignored) besides
`Orders` and `Customers`; no node of the assembled graph is named
`Documents`. -/
theorem c4_ignored_collection_has_no_node_witness :
    ("Documents" ∈ LISTS_TO_IGNORE)
    ∧ (fetch_sharepoint_lists (some wPayloadLists) = .ok wLd)
    ∧ (generate_uml_graph wLd wFetch = .ok wGraph)
    ∧ ∀ nd ∈ wGraph.nodes, nd.1 ≠ Val.vstr "Documents" :=
  ⟨by decide, rfl, rfl,
   c4_ignored_collection_has_no_node (some wPayloadLists) wFetch "Documents" wLd wGraph
     (by decide) rfl rfl⟩

theorem processCols_names :
    ∀ (raw : List Val) (cols : List Column),
      processCols raw = .ok cols →
      ∀ c ∈ cols, c.name ∉ COLUMNS_TO_IGNORE ∧ matchX003a c.name.toList = false := by
  intro raw
  induction raw with
  | nil =>
      intro cols h
      simp only [processCols, Except.ok.injEq] at h
      subst h
      simp
  | cons col rest ih =>
      intro cols h
      cases col with
      | vobj kvs =>
          simp only [processCols] at h
          by_cases hig : (COLUMNS_TO_IGNORE.any fun s =>
              pyEq (objGet kvs "name" (.vstr "")) (.vstr s)) = true
          · rw [if_pos hig] at h
            exact ih _ h
          · rw [if_neg hig] at h
            cases hnv : objGet kvs "name" (.vstr "") with
            | vstr s =>
                simp only [hnv] at h
                by_cases hm : matchX003a s.toList = true
                · rw [if_pos hm] at h
                  exact ih _ h
                · rw [if_neg hm] at h
                  cases hrest : processCols rest with
                  | error e => simp [hrest] at h
                  | ok rest2 =>
                      simp only [hrest, Except.ok.injEq] at h
                      subst h
                      intro c hc
                      rcases List.mem_cons.1 hc with rfl | htail
                      · refine ⟨?_, by simpa using hm⟩
                        intro hmem
                        apply hig
                        exact List.any_eq_true.2 ⟨s, hmem, by rw [hnv, pyEq_vstr]; simp⟩
                      · exact ih rest2 hrest c htail
            | vnull => simp [hnv] at h
            | vbool b => simp [hnv] at h
            | vnum n => simp [hnv] at h
            | varr xs => simp [hnv] at h
            | vobj kvs2 => simp [hnv] at h
      | vnull => simp [processCols] at h
      | vbool b => simp [processCols] at h
      | vnum n => simp [processCols] at h
      | vstr s => simp [processCols] at h
      | varr xs => simp [processCols] at h

theorem fetch_columns_filtered (x : Option Val) (cols : List Column)
    (h : fetch_columns x = .ok cols) :
    ∀ c ∈ cols, c.name ∉ COLUMNS_TO_IGNORE ∧ matchX003a c.name.toList = false := by
  cases x with
  | none =>
      simp only [fetch_columns, Except.ok.injEq] at h
      subst h
      simp
  | some d =>
      simp only [fetch_columns] at h
      cases htr : pyTruthy d with
      | false =>
          simp only [htr, Bool.not_false, if_pos, Except.ok.injEq] at h
          subst h
          simp
      | true =>
          rw [htr] at h
          rw [if_neg (by simp)] at h
          cases hc : pyContains d "value" with
          | error e => simp [hc] at h
          | ok b =>
              cases b with
              | false =>
                  simp only [hc, Except.ok.injEq] at h
                  subst h
                  simp
              | true =>
                  simp only [hc] at h
                  cases hg : pyGetItem d "value" with
                  | error e => simp [hg] at h
                  | ok v =>
                      simp only [hg] at h
                      cases hi : pyIter v with
                      | error e => simp [hi] at h
                      | ok raw =>
                          simp only [hi] at h
                          exact processCols_names raw cols h

theorem buildLists_labels (f : Val → Option Val) :
    ∀ (ld : List (Val × Val)) (nodes : List (Val × String)) (rels : List Rel),
      buildLists f ld = .ok (nodes, rels) →
      ∀ nd ∈ nodes, ∃ cols : List Column, nd.2 = mkNodeLabel nd.1 cols ∧
        ∀ c ∈ cols, c.name ∉ COLUMNS_TO_IGNORE ∧ matchX003a c.name.toList = false := by
  intro ld
  induction ld with
  | nil =>
      intro nodes rels h
      simp only [buildLists, Except.ok.injEq, Prod.mk.injEq] at h
      rcases h with ⟨rfl, rfl⟩
      simp
  | cons hd tl ih =>
      intro nodes rels h
      obtain ⟨ln, lid⟩ := hd
      cases hc : fetch_columns (f lid) with
      | error e => simp [buildLists, hc] at h
      | ok cols =>
          cases hr : collectRels ln cols with
          | error e => simp [buildLists, hc, hr] at h
          | ok rels1 =>
              cases hb : buildLists f tl with
              | error e => simp [buildLists, hc, hr, hb] at h
              | ok pr =>
                  obtain ⟨nodes2, rels2⟩ := pr
                  simp only [buildLists, hc, hr, hb, Except.ok.injEq, Prod.mk.injEq] at h
                  rcases h with ⟨rfl, rfl⟩
                  intro nd hnd
                  rcases List.mem_cons.1 hnd with rfl | htail
                  · exact ⟨cols, rfl, fetch_columns_filtered (f lid) cols hc⟩
                  · exact ih nodes2 rels2 hb nd htail

/-- C5: a field name that is in `COLUMNS_TO_IGNORE` or matches the
encoded-colon pattern appears in no node label of the assembled graph:
every node label is the table over a column list none of whose entries
carries that name. -/
theorem c5_ignored_field_in_no_label (fname : String)
    (hf : fname ∈ COLUMNS_TO_IGNORE ∨ matchX003a fname.toList = true)
    (ld : List (Val × Val)) (f : Val → Option Val) (g : GraphModel)
    (hg : generate_uml_graph ld f = .ok g) :
    ∀ nd ∈ g.nodes, ∃ cols : List Column,
      nd.2 = mkNodeLabel nd.1 cols ∧ ∀ c ∈ cols, c.name ≠ fname := by
  cases hb : buildLists f ld with
  | error e => simp [generate_uml_graph, hb] at hg
  | ok pr =>
      obtain ⟨nodes, rels⟩ := pr
      simp only [generate_uml_graph, hb, Except.ok.injEq] at hg
      subst hg
      intro nd hnd
      have hnd2 : nd ∈ nodes := hnd
      rcases buildLists_labels f ld nodes rels hb nd hnd2 with ⟨cols, hlbl, hall⟩
      refine ⟨cols, hlbl, ?_⟩
      intro c hc heq
      rcases hall c hc with ⟨hnotmem, hnomatch⟩
      rcases hf with hmem | hmatch
      · exact hnotmem (heq ▸ hmem)
      · rw [heq, hmatch] at hnomatch
        cases hnomatch

/-- Witness for C5: `ID` is an ignored field name (it even occurs in the
raw `Orders` payload), and every node label of the concrete graph is a
table over columns none of which is named `ID`. -/
theorem c5_ignored_field_in_no_label_witness :
    ("ID" ∈ COLUMNS_TO_IGNORE ∨ matchX003a "ID".toList = true)
    ∧ (generate_uml_graph wLd wFetch = .ok wGraph)
    ∧ ∀ nd ∈ wGraph.nodes, ∃ cols : List Column,
        nd.2 = mkNodeLabel nd.1 cols ∧ ∀ c ∈ cols, c.name ≠ "ID" :=
  ⟨Or.inl (by decide), rfl,
   c5_ignored_field_in_no_label "ID" (Or.inl (by decide)) wLd wFetch wGraph rfl⟩

/-- C6 counterexample: a field descriptor carrying no "name" key is NOT
excluded by `fetch_columns`: `col.get("name", "")` defaults to the empty
string, which passes both the ignore list and the pattern, so the field
enters the collection field list (with empty name and no warning). -/
theorem c6_missing_name_counterexample :
    fetch_columns (some (.vobj [("value", .varr [.vobj [("boolean", .vobj [])]])]))
      = .ok [{ name := "", id := .vnull, required := .vbool false,
               type_details := ⟨"boolean", .vobj []⟩ }] := rfl

/-- C6 amended: a collection item that is not a dict holding both
`displayName` and `id` keys is excluded (with a logged warning) and the
fetch continues; a field descriptor missing the `name` key, however, is
NOT excluded: it enters the collection field list with empty-string
name, default id/required, and its classified type. -/
theorem c6_malformed_descriptor_handling :
    (∀ (m : Val) (before after : List Val) (acc : List (Val × Val)),
      (∀ kvs, m = Val.vobj kvs → (hasKey kvs "displayName" && hasKey kvs "id") = false) →
      processListItems (before ++ m :: after) acc = processListItems (before ++ after) acc)
    ∧ (∀ (kvs : List (String × Val)) (rest : List Val) (rest2 : List Column),
      hasKey kvs "name" = false →
      processCols rest = .ok rest2 →
      processCols (Val.vobj kvs :: rest)
        = .ok ({ name := "", id := objGet kvs "id" Val.vnull,
                 required := objGet kvs "required" (.vbool false),
                 type_details := get_column_type kvs } :: rest2)) := by
  constructor
  · intro m before after acc hm
    induction before generalizing acc with
    | nil =>
        cases m with
        | vobj kvs =>
            simp only [List.nil_append, processListItems]
            rw [if_neg (by simp [hm kvs rfl])]
        | vnull => simp only [List.nil_append, processListItems]
        | vbool b => simp only [List.nil_append, processListItems]
        | vnum n => simp only [List.nil_append, processListItems]
        | vstr s => simp only [List.nil_append, processListItems]
        | varr xs => simp only [List.nil_append, processListItems]
    | cons b bs ih =>
        cases b with
        | vobj kvs =>
            simp only [List.cons_append, processListItems]
            by_cases h1 : (hasKey kvs "displayName" && hasKey kvs "id") = true
            · rw [if_pos h1, if_pos h1]
              by_cases h2 : (LISTS_TO_IGNORE.any fun s =>
                  pyEq (objGet kvs "displayName" Val.vnull) (.vstr s)) = true
              · rw [if_pos h2, if_pos h2]
                exact ih acc
              · rw [if_neg h2, if_neg h2]
                by_cases h3 : pyHashable (objGet kvs "displayName" Val.vnull) = true
                · rw [if_pos h3, if_pos h3]
                  exact ih _
                · rw [if_neg h3, if_neg h3]
            · rw [if_neg h1, if_neg h1]
              exact ih acc
        | vnull => simp only [List.cons_append, processListItems]; exact ih acc
        | vbool b => simp only [List.cons_append, processListItems]; exact ih acc
        | vnum n => simp only [List.cons_append, processListItems]; exact ih acc
        | vstr s => simp only [List.cons_append, processListItems]; exact ih acc
        | varr xs => simp only [List.cons_append, processListItems]; exact ih acc
  · intro kvs rest rest2 hname hrest
    have hget : objGet kvs "name" (.vstr "") = .vstr "" := by
      unfold hasKey at hname
      unfold objGet
      cases hl : objLookup kvs "name" with
      | some v => rw [hl] at hname; simp at hname
      | none => simp
    simp only [processCols, hget]
    rw [if_neg (by decide)]
    rw [if_neg (by decide)]
    simp only [hrest]

/-- Witness for C6 amended: a non-dict collection item is skipped
without failing, and a field descriptor `{"boolean": {}}` with no name
key enters the field list with empty name. -/
theorem c6_malformed_descriptor_handling_witness :
    (processListItems ([] ++ Val.vstr "junk"
          :: [.vobj [("displayName", .vstr "Tasks"), ("id", .vstr "t1")]]) []
        = processListItems ([] ++ [.vobj [("displayName", .vstr "Tasks"), ("id", .vstr "t1")]]) [])
    ∧ (hasKey [("boolean", Val.vobj [])] "name" = false
      ∧ processCols (Val.vobj [("boolean", Val.vobj [])] :: [])
          = .ok ({ name := "", id := objGet [("boolean", Val.vobj [])] "id" Val.vnull,
                   required := objGet [("boolean", Val.vobj [])] "required" (.vbool false),
                   type_details := get_column_type [("boolean", Val.vobj [])] } :: [])) :=
  ⟨c6_malformed_descriptor_handling.1 (Val.vstr "junk") []
      [.vobj [("displayName", .vstr "Tasks"), ("id", .vstr "t1")]] []
      (fun kvs h => Val.noConfusion h),
   by decide,
   c6_malformed_descriptor_handling.2 [("boolean", Val.vobj [])] [] [] (by decide) rfl⟩

/-- C7: when the source returns two non-ignored collections with the
same display name, the name-keyed map retains the id of the later one
and the fetch succeeds. -/
theorem c7_duplicate_name_last_write_wins (name : String) (i1 i2 : Val)
    (hn : name ∉ LISTS_TO_IGNORE) :
    ∃ d, fetch_sharepoint_lists (some (.vobj [("value", .varr
        [.vobj [("displayName", .vstr name), ("id", i1)],
         .vobj [("displayName", .vstr name), ("id", i2)]])])) = .ok d
      ∧ (d.find? (fun p => pyEq p.1 (.vstr name))).map Prod.snd = some i2 := by
  have hne : ∀ s, s ∈ LISTS_TO_IGNORE → (name == s) = false := by
    intro s hs
    simp only [beq_eq_false_iff_ne, ne_eq]
    rintro rfl
    exact hn hs
  refine ⟨[(Val.vstr name, i2)], ?_, ?_⟩
  · show processListItems
        [.vobj [("displayName", .vstr name), ("id", i1)],
         .vobj [("displayName", .vstr name), ("id", i2)]] [] = .ok [(Val.vstr name, i2)]
    simp [processListItems, hasKey, objGet, objLookup, List.find?, pyHashable, dictSet,
          pyEq_vstr, LISTS_TO_IGNORE,
          hne "Documents" (by decide), hne "Liens de partage" (by decide),
          hne "Extensions de modèle web" (by decide), hne "User" (by decide)]
  · simp [List.find?, pyEq_vstr]

/-- Witness for C7: two collections both named `Tasks` with ids `id1`
and `id2` produce a map whose `Tasks` entry holds `id2`. -/
theorem c7_duplicate_name_last_write_wins_witness :
    ("Tasks" ∉ LISTS_TO_IGNORE)
    ∧ ∃ d, fetch_sharepoint_lists (some (.vobj [("value", .varr
        [.vobj [("displayName", .vstr "Tasks"), ("id", .vstr "id1")],
         .vobj [("displayName", .vstr "Tasks"), ("id", .vstr "id2")]])])) = .ok d
      ∧ (d.find? (fun p => pyEq p.1 (.vstr "Tasks"))).map Prod.snd = some (.vstr "id2") :=
  ⟨by decide,
   c7_duplicate_name_last_write_wins "Tasks" (.vstr "id1") (.vstr "id2") (by decide)⟩

theorem collectRels_src (ln : Val) :
    ∀ (cols : List Column) (rels : List Rel),
      collectRels ln cols = .ok rels → ∀ r ∈ rels, r.src = ln := by
  intro cols
  induction cols with
  | nil =>
      intro rels h
      simp only [collectRels, Except.ok.injEq] at h
      subst h
      simp
  | cons c rest ih =>
      intro rels h
      simp only [collectRels] at h
      by_cases hl : (c.type_details.type == "lookup") = true
      · rw [if_pos hl] at h
        cases hd : pyDictGet c.type_details.details "listId" Val.vnull with
        | error e => simp [hd] at h
        | ok lid =>
            simp only [hd] at h
            cases hr : collectRels ln rest with
            | error e => simp [hr] at h
            | ok more =>
                simp only [hr, Except.ok.injEq] at h
                subst h
                intro r hrm
                rcases List.mem_append.1 hrm with hh | ht
                · by_cases htr : pyTruthy lid = true
                  · rw [if_pos htr] at hh
                    simp only [List.mem_singleton] at hh
                    rw [hh]
                  · rw [if_neg htr] at hh
                    simp at hh
                · exact ih more hr r ht
      · rw [if_neg hl] at h
        exact ih rels h

theorem buildLists_rels_src (f : Val → Option Val) :
    ∀ (ld : List (Val × Val)) (nodes : List (Val × String)) (rels : List Rel),
      buildLists f ld = .ok (nodes, rels) →
      ∀ r ∈ rels, r.src ∈ ld.map Prod.fst := by
  intro ld
  induction ld with
  | nil =>
      intro nodes rels h
      simp only [buildLists, Except.ok.injEq, Prod.mk.injEq] at h
      rcases h with ⟨rfl, rfl⟩
      simp
  | cons hd tl ih =>
      intro nodes rels h
      obtain ⟨ln, lid⟩ := hd
      cases hc : fetch_columns (f lid) with
      | error e => simp [buildLists, hc] at h
      | ok cols =>
          cases hr : collectRels ln cols with
          | error e => simp [buildLists, hc, hr] at h
          | ok rels1 =>
              cases hb : buildLists f tl with
              | error e => simp [buildLists, hc, hr, hb] at h
              | ok pr =>
                  obtain ⟨nodes2, rels2⟩ := pr
                  simp only [buildLists, hc, hr, hb, Except.ok.injEq, Prod.mk.injEq] at h
                  rcases h with ⟨rfl, rfl⟩
                  intro r hrm
                  rcases List.mem_append.1 hrm with hh | ht
                  · rw [collectRels_src ln cols rels1 hr r hh]
                    simp
                  · simp only [List.map_cons, List.mem_cons]
                    exact Or.inr (ih nodes2 rels2 hb r ht)

theorem resolveTarget_mem (ld : List (Val × Val)) (t target : Val)
    (h : resolveTarget ld t = some target) : target ∈ ld.map Prod.fst := by
  unfold resolveTarget at h
  cases hf : ld.find? (fun p => pyEq p.2 t) with
  | none => rw [hf] at h; simp at h
  | some p =>
      rw [hf] at h
      simp only [Option.map_some', Option.some.injEq] at h
      rw [← h]
      exact List.mem_map_of_mem Prod.fst (List.mem_of_find?_eq_some hf)

/-- C10: in every assembled graph, each edge's source and target are
names of nodes present in the graph: sources are keys of the collection
map (a node is created for every key before the edge loop runs) and
targets are resolved to keys of the same map, so no edge references a
missing node. -/
theorem c10_edges_reference_nodes (ld : List (Val × Val)) (f : Val → Option Val)
    (g : GraphModel) (hg : generate_uml_graph ld f = .ok g) :
    ∀ e ∈ g.edges, (∃ nd ∈ g.nodes, nd.1 = e.src) ∧ (∃ nd ∈ g.nodes, nd.1 = e.tgt) := by
  cases hb : buildLists f ld with
  | error e => simp [generate_uml_graph, hb] at hg
  | ok pr =>
      obtain ⟨nodes, rels⟩ := pr
      simp only [generate_uml_graph, hb, Except.ok.injEq] at hg
      subst hg
      intro e he
      have he2 : e ∈ buildEdges rels ld := he
      rcases List.mem_filterMap.1 he2 with ⟨r, hr, hfr⟩
      cases hres : resolveTarget ld r.targetId with
      | none => simp [hres] at hfr
      | some t =>
          simp only [hres] at hfr
          cases htr : pyTruthy t with
          | false => rw [htr] at hfr; simp at hfr
          | true =>
              rw [htr] at hfr
              simp only [if_true, Option.some.injEq] at hfr
              subst hfr
              have hnames : nodes.map Prod.fst = ld.map Prod.fst :=
                buildLists_node_names f ld nodes rels hb
              constructor
              · have hsrc : r.src ∈ ld.map Prod.fst :=
                  buildLists_rels_src f ld nodes rels hb r hr
                rw [← hnames] at hsrc
                rcases List.mem_map.1 hsrc with ⟨nd, hnd, hnd1⟩
                exact ⟨nd, hnd, hnd1⟩
              · have htgt : t ∈ ld.map Prod.fst := resolveTarget_mem ld r.targetId t hres
                rw [← hnames] at htgt
                rcases List.mem_map.1 htgt with ⟨nd, hnd, hnd1⟩
                exact ⟨nd, hnd, hnd1⟩

/-- Witness for C10: in the concrete graph (which contains the
`Orders → Customers` edge), every edge endpoint is a node name. -/
theorem c10_edges_reference_nodes_witness :
    (generate_uml_graph wLd wFetch = .ok wGraph)
    ∧ ∀ e ∈ wGraph.edges,
        (∃ nd ∈ wGraph.nodes, nd.1 = e.src) ∧ (∃ nd ∈ wGraph.nodes, nd.1 = e.tgt) :=
  ⟨rfl, c10_edges_reference_nodes wLd wFetch wGraph rfl⟩

end SPSchema
